import Mathlib

/-!
Verification development for the UnrealLibretro concurrency and dispatch core.

The definitions below are shallow embeddings of the code in
`Source/UnrealLibretro/Private/sdlarch.cpp` and
`Source/UnrealLibretro/Private/LibretroCoreInstance.cpp`:

* the instance allocator of `LibretroContext::launch` (global bitset of
  capacity `MAX_INSTANCES = 100`, per-core bitset of capacity
  `MAX_INSTANCES_PER_CORE = 8*8`, `FindAndSetFirstZeroBit`, the `check`
  macro condition, and the release that clears both bits at teardown);
* the path-keyed ordered asynchronous file access chain built by
  `MakeOrderedFileAccessOperation` over the `LastIOTask` map;
* the run loop frame pacing and frame-time callback steps;
* `LibretroContext::audio_write`, `LibretroContext::core_input_state`;
* the validation prologue of `ULibretroCoreInstance::Launch` and the
  body of the `ULibretroCoreInstance::LoadState` file operation.

Machine integers are modelled as `Int`/`Nat` (no value in range of the
source ever overflows 32 bits in the scenarios treated here), Unreal
`TBitArray` as `List Bool`, `TMap` as an association list, wall-clock
times as rationals, and the task-graph completion events by the index of
the operation that fulfills them.
-/

/-! ## Bit arrays: `TBitArray`, `FindAndSetFirstZeroBit`, element writes -/

/-- Unreal `INDEX_NONE`, the failure value of `FindAndSetFirstZeroBit`. -/
def INDEX_NONE : Int := -1

/-- Index of the first `false` bit of a bit array, if any
(the search half of `TBitArray::FindAndSetFirstZeroBit`). -/
def findFirstZeroBit : List Bool → Option Nat
  | [] => none
  | true :: rest => (findFirstZeroBit rest).map (· + 1)
  | false :: _ => some 0

/-- Write `true` to position `i` of a bit array (no effect out of range). -/
def setBit : List Bool → Nat → List Bool
  | [], _ => []
  | _ :: rest, 0 => true :: rest
  | b :: rest, n + 1 => b :: setBit rest n

/-- Write `false` to position `i` of a bit array (no effect out of range);
models `BitArray[Index] = false` in the teardown of `LibretroContext::launch`. -/
def clearBit : List Bool → Nat → List Bool
  | [], _ => []
  | _ :: rest, 0 => false :: rest
  | b :: rest, n + 1 => b :: clearBit rest n

/-- `TBitArray::FindAndSetFirstZeroBit`: returns the index of the lowest
free bit and sets it, or returns `INDEX_NONE` leaving the array unchanged. -/
def findAndSetFirstZeroBit (l : List Bool) : Int × List Bool :=
  match findFirstZeroBit l with
  | some i => (Int.ofNat i, setBit l i)
  | none => (INDEX_NONE, l)

/-! ## The instance allocator of `LibretroContext::launch`

`sdlarch.cpp` lines 788-792 declare the capacities and the two bitsets;
lines 816-825 allocate under `MultipleDLLInstanceHandlingLock`; lines
917-922 release under the same lock.  The per-core map
`PerCoreAllocatedInstances` (`TMap<FString, TBitArray>`) is modelled as
an association list with the `FindOrAdd` default of an all-zero bit
array of size `MAX_INSTANCES_PER_CORE`. -/

def MAX_INSTANCES : Nat := 100

def MAX_INSTANCES_PER_CORE : Nat := 8 * 8

/-- Lookup in the per-core map, not inserting. -/
def lookupCore? : List (String × List Bool) → String → Option (List Bool)
  | [], _ => none
  | (c0, b0) :: rest, c => if c0 = c then some b0 else lookupCore? rest c

/-- `TMap::FindOrAdd` read: the stored bit array for a core, defaulting to
the all-zero array of size `MAX_INSTANCES_PER_CORE`. -/
def lookupCore (m : List (String × List Bool)) (c : String) : List Bool :=
  (lookupCore? m c).getD (List.replicate MAX_INSTANCES_PER_CORE false)

/-- Store the (possibly new) bit array for a core back into the map. -/
def updateCore : List (String × List Bool) → String → List Bool → List (String × List Bool)
  | [], c, b => [(c, b)]
  | (c0, b0) :: rest, c, b =>
    if c0 = c then (c, b) :: rest else (c0, b0) :: updateCore rest c b

/-- The process-wide allocator state: `PerCoreAllocatedInstances` and
`AllocatedInstances` of `LibretroContext::launch`. -/
structure AllocatorState where
  perCore : List (String × List Bool)
  global : List Bool

/-- The state before any instance has been launched. -/
def initialAllocator : AllocatorState :=
  { perCore := [], global := List.replicate MAX_INSTANCES false }

/-- What one allocation produces: `CoreInstanceNumber`, `InstanceNumber`,
and whether the assertion
`check(CoreInstanceNumber != INDEX_NONE || InstanceNumber != INDEX_NONE)`
passes (when it fails the engine aborts). -/
structure AllocResult where
  CoreInstanceNumber : Int
  InstanceNumber : Int
  checkPassed : Bool
  deriving DecidableEq, Repr

/-- The locked section of `LibretroContext::launch` lines 816-825:
`FindAndSetFirstZeroBit` on the `FindOrAdd` entry for this core, then on
the global bitset, then the `check` with the `||` condition written in
the source. -/
def allocate (s : AllocatorState) (core : String) : AllocResult × AllocatorState :=
  let coreBits := lookupCore s.perCore core
  let cRes := findAndSetFirstZeroBit coreBits
  let gRes := findAndSetFirstZeroBit s.global
  ({ CoreInstanceNumber := cRes.1
   , InstanceNumber := gRes.1
   , checkPassed := decide (cRes.1 ≠ INDEX_NONE) || decide (gRes.1 ≠ INDEX_NONE) },
   { perCore := updateCore s.perCore core cRes.2, global := gRes.2 })

/-- The locked section of `LibretroContext::launch` lines 917-922:
`AllocatedInstances[InstanceNumber] = false` and
`PerCoreAllocatedInstances[core][CoreInstanceNumber] = false`. -/
def release (s : AllocatorState) (core : String) (instanceNumber coreInstanceNumber : Nat) :
    AllocatorState :=
  { perCore := updateCore s.perCore core (clearBit (lookupCore s.perCore core) coreInstanceNumber)
  , global := clearBit s.global instanceNumber }

/-- Run a sequence of allocations (the launches of several instances),
keeping only the final state. -/
def allocateMany (s : AllocatorState) : List String → AllocatorState
  | [] => s
  | c :: rest => allocateMany (allocate s c).2 rest

/-- 100 launches: 64 instances of core A (filling its per-core bitset)
followed by 36 instances of core B, together filling the global bitset. -/
def coresForFullLoad : List String :=
  List.replicate 64 "A" ++ List.replicate 36 "B"

/-- The allocator state with all 100 global instance slots held. -/
def exhaustedState : AllocatorState :=
  allocateMany initialAllocator coresForFullLoad

/-! ## Specification lemmas for the bit array primitives -/

theorem findFirstZeroBit_lt_length :
    ∀ (l : List Bool) (i : Nat), findFirstZeroBit l = some i → i < l.length := by
  intro l
  induction l with
  | nil => intro i h; simp [findFirstZeroBit] at h
  | cons b rest ih =>
    intro i h
    cases b with
    | false =>
      simp only [findFirstZeroBit, Option.some.injEq] at h
      subst h
      simp
    | true =>
      simp only [findFirstZeroBit, Option.map_eq_some'] at h
      obtain ⟨i', h1, rfl⟩ := h
      simpa using ih i' h1

theorem findFirstZeroBit_free :
    ∀ (l : List Bool) (i : Nat), findFirstZeroBit l = some i → l.get? i = some false := by
  intro l
  induction l with
  | nil => intro i h; simp [findFirstZeroBit] at h
  | cons b rest ih =>
    intro i h
    cases b with
    | false =>
      simp only [findFirstZeroBit, Option.some.injEq] at h
      subst h
      rfl
    | true =>
      simp only [findFirstZeroBit, Option.map_eq_some'] at h
      obtain ⟨i', h1, rfl⟩ := h
      simpa using ih i' h1

theorem findFirstZeroBit_lowest :
    ∀ (l : List Bool) (i : Nat), findFirstZeroBit l = some i →
      ∀ j, j < i → l.get? j = some true := by
  intro l
  induction l with
  | nil => intro i h; simp [findFirstZeroBit] at h
  | cons b rest ih =>
    intro i h j hj
    cases b with
    | false =>
      simp only [findFirstZeroBit, Option.some.injEq] at h
      omega
    | true =>
      simp only [findFirstZeroBit, Option.map_eq_some'] at h
      obtain ⟨i', h1, rfl⟩ := h
      cases j with
      | zero => rfl
      | succ j' => simpa using ih i' h1 j' (by omega)

theorem clearBit_setBit :
    ∀ (l : List Bool) (i : Nat), l.get? i = some false → clearBit (setBit l i) i = l := by
  intro l
  induction l with
  | nil => intro i _; rfl
  | cons b rest ih =>
    intro i h
    cases i with
    | zero =>
      simp only [List.get?] at h
      cases h
      rfl
    | succ i' =>
      simp only [List.get?] at h
      simp [setBit, clearBit, ih i' h]

theorem lookupCore?_update_self :
    ∀ (m : List (String × List Bool)) (c : String) (b : List Bool),
      lookupCore? (updateCore m c b) c = some b := by
  intro m
  induction m with
  | nil => intro c b; simp [updateCore, lookupCore?]
  | cons hd rest ih =>
    intro c b
    by_cases hc : hd.1 = c
    · simp [updateCore, hc, lookupCore?]
    · simp [updateCore, hc, lookupCore?, ih]

theorem lookupCore_update_self (m : List (String × List Bool)) (c : String) (b : List Bool) :
    lookupCore (updateCore m c b) c = b := by
  simp [lookupCore, lookupCore?_update_self]

/-! ## Claims C3 and C4: the instance allocator -/

set_option maxRecDepth 16000

/-- Claim C3 (code divergence, evaluated at the failing input): with all
100 global instance slots held, a 101st allocation for a fresh core C
finds no free global bit (`InstanceNumber = INDEX_NONE`), yet the
assertion `check(CoreInstanceNumber != INDEX_NONE || InstanceNumber !=
INDEX_NONE)` still passes, because the per-core bitset of the fresh core
is empty (`CoreInstanceNumber = 0`).  The launch therefore proceeds and
hands out `func_wrap_table + (-1)` instead of failing fatally, contrary
to the claim that exhaustion of either bitset aborts the allocation. -/
theorem allocator_exhaustion_check_passes :
    (allocate exhaustedState "C").1.InstanceNumber = INDEX_NONE ∧
    (allocate exhaustedState "C").1.CoreInstanceNumber = Int.ofNat 0 ∧
    (allocate exhaustedState "C").1.checkPassed = true := by
  decide

/-- Claim C4 counterexample: with the global bitset exhausted, two
successive allocations for the fresh cores C and D both pass the
assertion and both receive the identical
`(InstanceNumber, CoreInstanceNumber)` pair `(INDEX_NONE, 0)` while the
first holder is still live, so the allocator does hand an in-use pair to
a second caller. -/
theorem allocator_duplicate_pair_on_exhaustion :
    (allocate exhaustedState "C").1.checkPassed = true ∧
    (allocate (allocate exhaustedState "C").2 "D").1.checkPassed = true ∧
    (allocate exhaustedState "C").1.InstanceNumber = INDEX_NONE ∧
    ((allocate exhaustedState "C").1.InstanceNumber,
      (allocate exhaustedState "C").1.CoreInstanceNumber) =
    ((allocate (allocate exhaustedState "C").2 "D").1.InstanceNumber,
      (allocate (allocate exhaustedState "C").2 "D").1.CoreInstanceNumber) := by
  decide

/-- Claim C4 (amended): provided neither bitset is exhausted at
allocation time, `allocate` returns the lowest free bit of the global
and of the per-core bitset, hence never a pair whose global index is
held by a live runtime; and an allocate-release-allocate sequence for
the same core returns the same pair again, because `release` clears
exactly the two bits that were set. -/
theorem allocator_lowest_free_and_reuse (s : AllocatorState) (core : String) (g i : Nat)
    (hg : findFirstZeroBit s.global = some g)
    (hi : findFirstZeroBit (lookupCore s.perCore core) = some i) :
    (allocate s core).1 =
      { CoreInstanceNumber := Int.ofNat i, InstanceNumber := Int.ofNat g, checkPassed := true }
    ∧ s.global.get? g = some false
    ∧ (lookupCore s.perCore core).get? i = some false
    ∧ (∀ j, j < g → s.global.get? j = some true)
    ∧ (∀ j, j < i → (lookupCore s.perCore core).get? j = some true)
    ∧ (∀ g' i' : Nat, s.global.get? g' = some true →
        (Int.ofNat g, Int.ofNat i) ≠ (Int.ofNat g', Int.ofNat i'))
    ∧ (allocate (release (allocate s core).2 core g i) core).1 =
      { CoreInstanceNumber := Int.ofNat i, InstanceNumber := Int.ofNat g, checkPassed := true } := by
  have hfree_g : s.global.get? g = some false := findFirstZeroBit_free _ _ hg
  have hfree_i : (lookupCore s.perCore core).get? i = some false :=
    findFirstZeroBit_free _ _ hi
  have hne_i : (Int.ofNat i : Int) ≠ INDEX_NONE := by simp [INDEX_NONE]
  have e_g : findAndSetFirstZeroBit s.global = (Int.ofNat g, setBit s.global g) := by
    simp [findAndSetFirstZeroBit, hg]
  have e_i : findAndSetFirstZeroBit (lookupCore s.perCore core) =
      (Int.ofNat i, setBit (lookupCore s.perCore core) i) := by
    simp [findAndSetFirstZeroBit, hi]
  have halloc : allocate s core =
      ({ CoreInstanceNumber := Int.ofNat i, InstanceNumber := Int.ofNat g, checkPassed := true },
       { perCore := updateCore s.perCore core (setBit (lookupCore s.perCore core) i)
       , global := setBit s.global g }) := by
    simp [allocate, e_g, e_i, INDEX_NONE]
  have hlook1 : lookupCore
      (updateCore s.perCore core (setBit (lookupCore s.perCore core) i)) core =
      setBit (lookupCore s.perCore core) i := lookupCore_update_self _ _ _
  have hrel : release (allocate s core).2 core g i =
      { perCore := updateCore
          (updateCore s.perCore core (setBit (lookupCore s.perCore core) i)) core
          (lookupCore s.perCore core)
      , global := s.global } := by
    rw [halloc]
    simp [release, hlook1, clearBit_setBit _ _ hfree_i, clearBit_setBit _ _ hfree_g]
  have hlook2 : lookupCore
      (updateCore (updateCore s.perCore core (setBit (lookupCore s.perCore core) i)) core
        (lookupCore s.perCore core)) core = lookupCore s.perCore core :=
    lookupCore_update_self _ _ _
  refine ⟨by rw [halloc], hfree_g, hfree_i,
    findFirstZeroBit_lowest _ _ hg, findFirstZeroBit_lowest _ _ hi, ?_, ?_⟩
  · intro g' i' hheld heq
    have hgg : g = g' := by
      have := congrArg Prod.fst heq
      simpa using this
    rw [← hgg] at hheld
    rw [hheld] at hfree_g
    exact Bool.noConfusion (Option.some.inj hfree_g)
  · rw [hrel]
    simp [allocate, hlook2, e_g, e_i, INDEX_NONE]

/-- Witness for `allocator_lowest_free_and_reuse`: from the empty pool,
the allocation for core A returns the pair `(0, 0)` and passes the
assertion. -/
theorem allocator_lowest_free_and_reuse_witness :
    (allocate initialAllocator "A").1 =
      { CoreInstanceNumber := Int.ofNat 0, InstanceNumber := Int.ofNat 0, checkPassed := true } :=
  (allocator_lowest_free_and_reuse initialAllocator "A" 0 0 (by decide) (by decide)).1

/-! ## Claim C10: `LibretroContext::core_input_state`

`sdlarch.cpp` lines 569-580.  The libretro device identifiers used by
the switch statement (from `libretro.h`). -/

def RETRO_DEVICE_JOYPAD : Nat := 1

def RETRO_DEVICE_ANALOG : Nat := 5

/-- The per-instance input tables read by `core_input_state`:
`analog[id][index]` and `g_joy[id]`. -/
structure InputContext where
  analog : Nat → Nat → Int
  g_joy : Nat → Int

/-- `LibretroContext::core_input_state`: zero for any nonzero port, then
a switch on the device, defaulting to zero. -/
def core_input_state (ctx : InputContext) (port device index ident : Nat) : Int :=
  if port ≠ 0 then 0
  else if device = RETRO_DEVICE_ANALOG then ctx.analog ident index
  else if device = RETRO_DEVICE_JOYPAD then ctx.g_joy ident
  else 0

/-- Claim C10: the input-state callback returns 0 for every nonzero
port, whatever the device, index and id; and for a device that is
neither `RETRO_DEVICE_ANALOG` nor `RETRO_DEVICE_JOYPAD` it also returns
0 (in particular on port 0). -/
theorem core_input_state_zero (ctx : InputContext) (port device index ident : Nat) :
    (port ≠ 0 → core_input_state ctx port device index ident = 0) ∧
    (device ≠ RETRO_DEVICE_ANALOG → device ≠ RETRO_DEVICE_JOYPAD →
      core_input_state ctx port device index ident = 0) := by
  constructor
  · intro hp
    simp [core_input_state, hp]
  · intro h1 h2
    simp [core_input_state, h1, h2]

/-- A concrete input context whose tables are nowhere zero, to show the
zeros of `core_input_state_zero` come from the callback and not from the
tables. -/
def inputContextNonZero : InputContext :=
  { analog := fun _ _ => 7, g_joy := fun _ => 9 }

/-- Witness for `core_input_state_zero`: port 1 with the joypad device
reads 0, and port 0 with the mouse device (2) reads 0, although every
table entry is nonzero. -/
theorem core_input_state_zero_witness :
    core_input_state inputContextNonZero 1 RETRO_DEVICE_JOYPAD 0 0 = 0 ∧
    core_input_state inputContextNonZero 0 2 0 0 = 0 :=
  ⟨(core_input_state_zero inputContextNonZero 1 RETRO_DEVICE_JOYPAD 0 0).1 (by decide),
   (core_input_state_zero inputContextNonZero 0 2 0 0).2 (by decide) (by decide)⟩

/-! ## Claim C7: `LibretroContext::audio_write`

`sdlarch.cpp` lines 378-391.  `QueuedAudio` is a bounded
`TCircularQueue<int32>` whose `Enqueue` either appends and returns true
or rejects (queue full) leaving the queue unchanged; one `int32` holds
one stereo frame.  `running` is the run flag of the context. -/

/-- The audio queue: buffered frames and the bound above which
`Enqueue` rejects. -/
structure AudioQueue where
  buf : List Int
  capacity : Nat
  deriving DecidableEq, Repr

/-- `TCircularQueue::Enqueue`: appends when a slot is free (a circular
queue of size N holds at most N-1 items), otherwise rejects leaving the
queue unchanged. -/
def enqueueAudio (q : AudioQueue) (x : Int) : Bool × AudioQueue :=
  if q.buf.length + 1 < q.capacity then (true, ⟨q.buf ++ [x], q.capacity⟩)
  else (false, q)

/-- The enqueue loop of `audio_write`:
`while (FramesEnqueued < frames && QueuedAudio->Enqueue(...))`. -/
def audioWriteLoop : AudioQueue → List Int → Nat × AudioQueue
  | q, [] => (0, q)
  | q, x :: rest =>
    match enqueueAudio q x with
    | (true, q1) =>
      let r := audioWriteLoop q1 rest
      (r.1 + 1, r.2)
    | (false, q1) => (0, q1)

/-- `LibretroContext::audio_write`: when running, enqueue frame by frame
and return the count enqueued; when not running, return `frames`
untouched (the source deliberately reports all frames as consumed so a
core that retries until everything is written cannot spin forever). -/
def audio_write (running : Bool) (q : AudioQueue) (samples : List Int) : Nat × AudioQueue :=
  if running then audioWriteLoop q samples
  else (samples.length, q)

theorem audioWriteLoop_spec (samples : List Int) : ∀ q : AudioQueue,
    (audioWriteLoop q samples).1 ≤ samples.length ∧
    (audioWriteLoop q samples).2.capacity = q.capacity ∧
    (audioWriteLoop q samples).2.buf = q.buf ++ samples.take (audioWriteLoop q samples).1 ∧
    ((audioWriteLoop q samples).1 = samples.length ∨
      (audioWriteLoop q samples).2.buf.length + 1 ≥ q.capacity) := by
  induction samples with
  | nil => intro q; simp [audioWriteLoop]
  | cons x rest ih =>
    intro q
    by_cases hroom : q.buf.length + 1 < q.capacity
    · have henq : enqueueAudio q x = (true, ⟨q.buf ++ [x], q.capacity⟩) := by
        simp [enqueueAudio, hroom]
      obtain ⟨ih1, ih2, ih3, ih4⟩ := ih ⟨q.buf ++ [x], q.capacity⟩
      refine ⟨?_, ?_, ?_, ?_⟩
      · simp only [audioWriteLoop, henq]
        simpa using ih1
      · simp only [audioWriteLoop, henq]
        simpa using ih2
      · simp only [audioWriteLoop, henq]
        simpa [List.append_assoc] using ih3
      · simp only [audioWriteLoop, henq]
        rcases ih4 with h | h
        · exact Or.inl (by simpa using h)
        · exact Or.inr (by simpa using h)
    · have henq : enqueueAudio q x = (false, q) := by
        simp [enqueueAudio, hroom]
      simp [audioWriteLoop, henq]
      omega

/-- Claim C7 counterexample: with the run flag cleared, `audio_write`
reports one frame consumed while the queue (which had room) accepted
nothing, so the returned value is not the number of frames accepted. -/
theorem audio_write_not_running_lies :
    (audio_write false ⟨[], 8⟩ [3]).1 = 1 ∧
    (audio_write false ⟨[], 8⟩ [3]).2.buf = [] ∧
    (enqueueAudio ⟨[], 8⟩ 3).1 = true := by
  decide

/-- Claim C7 (amended): while the context is running, the value returned
by the audio-batch callback equals the number of frames actually
accepted into the queue — the frames are enqueued one at a time until
either all of them are in or the queue rejects one, and exactly the
accepted prefix is appended; when the run flag is cleared, the callback
enqueues nothing and returns the full frame count. -/
theorem audio_write_returns_accepted (q : AudioQueue) (samples : List Int) :
    ((audio_write true q samples).1 ≤ samples.length ∧
      (audio_write true q samples).2.buf =
        q.buf ++ samples.take (audio_write true q samples).1 ∧
      ((audio_write true q samples).1 = samples.length ∨
        (audio_write true q samples).2.buf.length + 1 ≥ q.capacity)) ∧
    ((audio_write false q samples).1 = samples.length ∧
      (audio_write false q samples).2 = q) := by
  obtain ⟨h1, _, h3, h4⟩ := audioWriteLoop_spec samples q
  exact ⟨⟨by simpa [audio_write] using h1, by simpa [audio_write] using h3,
    by simpa [audio_write] using h4⟩, by simp [audio_write], by simp [audio_write]⟩

/-! ## Claim C5: run loop frame pacing

`sdlarch.cpp` lines 886-899:

  auto sleep = (frames / l->av.timing.fps) - (FDateTime::Now() - start).GetTotalSeconds();
  if (sleep < -(1 / l->av.timing.fps)) { start = FDateTime::Now(); frames = 0; }
  FPlatformProcess::Sleep(FMath::Max(0.0, sleep));

Wall-clock seconds are modelled as rationals; `frames` was incremented
just before the pacing step, so it counts the cumulative frames
including the current one.  The two `FDateTime::Now()` reads of one
iteration are modelled as the same instant `now`. -/

/-- One pacing step: given the target `fps`, the reference clock
`start`, the cumulative frame count and the current time, returns the
new `(start, frames)` pair and the duration passed to `Sleep`. -/
def framePacingStep (fps start : ℚ) (frames : ℕ) (now : ℚ) : (ℚ × ℕ) × ℚ :=
  let sleep := (frames : ℚ) / fps - (now - start)
  if sleep < -(1 / fps) then ((now, 0), max 0 sleep)
  else ((start, frames), max 0 sleep)

/-- Claim C5: the pacing step computes the remaining delta as the ideal
elapsed time `frames / fps` minus the actual elapsed time; when the loop
lags by more than one frame interval it resets the reference clock to
now and the frame counter to zero and sleeps nothing (no catch-up
burst), and otherwise it keeps both and sleeps the delta clamped to be
non-negative. -/
theorem framePacingStep_spec (fps start : ℚ) (frames : ℕ) (now : ℚ) (hfps : 0 < fps) :
    ((now - start) - (frames : ℚ) / fps > 1 / fps →
      framePacingStep fps start frames now = ((now, 0), 0)) ∧
    ((now - start) - (frames : ℚ) / fps ≤ 1 / fps →
      framePacingStep fps start frames now =
        ((start, frames), max 0 ((frames : ℚ) / fps - (now - start))) ∧
      0 ≤ (framePacingStep fps start frames now).2) := by
  constructor
  · intro hlag
    have hs : (frames : ℚ) / fps - (now - start) < -(1 / fps) := by linarith
    have hpos : 0 < 1 / fps := by positivity
    have hneg : (frames : ℚ) / fps - (now - start) ≤ 0 := by linarith
    simp only [framePacingStep]
    rw [if_pos hs, max_eq_left hneg]
  · intro hle
    have hs : -(1 / fps) ≤ (frames : ℚ) / fps - (now - start) := by linarith
    simp only [framePacingStep]
    rw [if_neg (not_lt.mpr hs)]
    exact ⟨rfl, le_max_left 0 _⟩

/-- Witness for `framePacingStep_spec`: at 60 fps, with 60 frames
counted but 2 seconds elapsed (a lag of one whole second), the step
resets the clock and counter and sleeps nothing; and with 60 frames in
half a second it keeps them and sleeps the remaining half second. -/
theorem framePacingStep_spec_witness :
    framePacingStep 60 0 60 2 = ((2, 0), 0) ∧
    framePacingStep 60 0 60 (1/2) = ((0, 60), 1/2) := by
  constructor
  · exact (framePacingStep_spec 60 0 60 2 (by norm_num)).1 (by norm_num)
  · have h := ((framePacingStep_spec 60 0 60 (1/2) (by norm_num)).2 (by norm_num)).1
    rw [h]
    norm_num

/-! ## Claim C6: the frame-time callback step

`sdlarch.cpp` lines 866-876 and 751-753.  The helper
`cpu_features_get_time_usec` is documented in the source as returning
microseconds but is implemented as `SDL_GetTicks()`, which counts
milliseconds; the run loop multiplies the delta by 1000 before invoking
the callback.  The callback reference interval `reference` is a
microsecond quantity (`retro_usec_t`) configured by the core. -/

/-- The timer of the run loop: despite the name and its documentation
(microseconds), the implementation returns the `SDL_GetTicks()`
millisecond counter unchanged. -/
def cpu_features_get_time_usec (sdlTicksMilliseconds : Int) : Int := sdlTicksMilliseconds

/-- `retro_frame_time_callback`: the configured reference interval in
microseconds. -/
structure FrameTimeCallback where
  reference : Int
  deriving DecidableEq, Repr

/-- One frame-time step of the run loop: computes the delta of the timer
against `runloop_frame_time_last`, substitutes `reference` when the last
timestamp is still zero (first invocation), stores the current timer
value, and passes `delta * 1000` to the callback.  Returns the callback
argument and the new `runloop_frame_time_last`. -/
def frameTimeStep (cb : FrameTimeCallback) (lastTicks nowTicks : Int) : Int × Int :=
  let current := cpu_features_get_time_usec nowTicks
  let delta := current - lastTicks
  let delta1 := if lastTicks = 0 then cb.reference else delta
  (delta1 * 1000, current)

/-- Claim C6 (code divergence, evaluated at the failing input): on the
very first invocation (stored timestamp still zero) with the configured
reference interval of 16667 microseconds, the callback receives
16667000, i.e. the reference interval multiplied by 1000, not the
reference interval the claim promises; on subsequent invocations the
callback receives the elapsed milliseconds times 1000, which is the
elapsed time in microseconds as claimed. -/
theorem frameTimeStep_first_call_scaled :
    (frameTimeStep ⟨16667⟩ 0 5).1 = 16667000 ∧
    ((16667000 : Int) ≠ 16667) ∧
    (frameTimeStep ⟨16667⟩ 5 21).1 = (21 - 5) * 1000 ∧
    (frameTimeStep ⟨16667⟩ 5 21).2 = 21 := by
  decide

/-! ## Claim C8: validation prologue of `ULibretroCoreInstance::Launch`

`LibretroCoreInstance.cpp` lines 89-117: `Launch` first calls
`Shutdown()` (which resets `CoreInstance`), then checks that the core
path names an existing file and that the ROM path names an existing file
or directory; on either failure it logs a warning and returns before the
audio buffer and render target objects are created, before the ordered
SRAM load operation is scheduled, and before `LibretroContext::Launch`
spawns the background thread. -/

/-- The physical platform file queries used by the validation. -/
structure PlatformFileSystem where
  files : List String
  dirs : List String
  deriving DecidableEq, Repr

def fileExists (fs : PlatformFileSystem) (p : String) : Bool := fs.files.contains p

def directoryExists (fs : PlatformFileSystem) (p : String) : Bool := fs.dirs.contains p

/-- The component fields touched by `Launch`: whether `CoreInstance`,
`RenderTarget` and `AudioBuffer` are set. -/
structure CoreInstanceComponent where
  coreInstanceSet : Bool
  renderTargetSet : Bool
  audioBufferSet : Bool
  deriving DecidableEq, Repr

/-- The observable effects of one `Launch` call: the resulting component
state and how many background threads, core runtimes, audio buffers and
render targets were created and how many ordered file operations were
scheduled by this call. -/
structure LaunchEffects where
  component : CoreInstanceComponent
  threadsSpawned : Nat
  runtimesCreated : Nat
  audioBuffersCreated : Nat
  renderTargetsCreated : Nat
  orderedOpsScheduled : Nat
  deriving DecidableEq, Repr

/-- `ULibretroCoreInstance::Launch` lines 89-149: shutdown, validate the
two paths, then allocate the audio buffer, ensure a render target,
schedule the ordered SRAM load and launch the core runtime thread. -/
def launchComponent (fs : PlatformFileSystem) (s : CoreInstanceComponent)
    (corePath romPath : String) : LaunchEffects :=
  let s1 : CoreInstanceComponent := { s with coreInstanceSet := false }
  if fileExists fs corePath = false then
    { component := s1, threadsSpawned := 0, runtimesCreated := 0
    , audioBuffersCreated := 0, renderTargetsCreated := 0, orderedOpsScheduled := 0 }
  else if (fileExists fs romPath || directoryExists fs romPath) = false then
    { component := s1, threadsSpawned := 0, runtimesCreated := 0
    , audioBuffersCreated := 0, renderTargetsCreated := 0, orderedOpsScheduled := 0 }
  else
    { component := { coreInstanceSet := true, renderTargetSet := true, audioBufferSet := true }
    , threadsSpawned := 1, runtimesCreated := 1, audioBuffersCreated := 1
    , renderTargetsCreated := if s.renderTargetSet then 0 else 1
    , orderedOpsScheduled := 1 }

/-- Claim C8: a launch whose core file does not exist, or whose ROM path
exists neither as a file nor as a directory, returns after validation
with no thread spawned, no runtime, audio buffer or render target
created, no ordered file operation scheduled, and `CoreInstance`
unset. -/
theorem launch_validation_no_partial_runtime (fs : PlatformFileSystem)
    (s : CoreInstanceComponent) (corePath romPath : String)
    (h : fileExists fs corePath = false ∨
      (fileExists fs romPath = false ∧ directoryExists fs romPath = false)) :
    (launchComponent fs s corePath romPath).component.coreInstanceSet = false ∧
    (launchComponent fs s corePath romPath).threadsSpawned = 0 ∧
    (launchComponent fs s corePath romPath).runtimesCreated = 0 ∧
    (launchComponent fs s corePath romPath).audioBuffersCreated = 0 ∧
    (launchComponent fs s corePath romPath).renderTargetsCreated = 0 ∧
    (launchComponent fs s corePath romPath).orderedOpsScheduled = 0 := by
  rcases h with hcore | ⟨hromf, hromd⟩
  · simp [launchComponent, hcore]
  · by_cases hcore : fileExists fs corePath = false
    · simp [launchComponent, hcore]
    · simp [launchComponent, hcore, hromf, hromd]

/-- Witness for `launch_validation_no_partial_runtime`: a file system
holding only the core file, a ROM path that exists nowhere, and a
component that had a live instance before the call. -/
theorem launch_validation_witness :
    (launchComponent ⟨["cores/chip8.dll"], []⟩ ⟨true, true, true⟩
        "cores/chip8.dll" "roms/MAZE").component.coreInstanceSet = false ∧
    (launchComponent ⟨["cores/chip8.dll"], []⟩ ⟨true, true, true⟩
        "cores/chip8.dll" "roms/MAZE").threadsSpawned = 0 :=
  ⟨(launch_validation_no_partial_runtime ⟨["cores/chip8.dll"], []⟩ ⟨true, true, true⟩
      "cores/chip8.dll" "roms/MAZE" (Or.inr ⟨by decide, by decide⟩)).1,
   (launch_validation_no_partial_runtime ⟨["cores/chip8.dll"], []⟩ ⟨true, true, true⟩
      "cores/chip8.dll" "roms/MAZE" (Or.inr ⟨by decide, by decide⟩)).2.1⟩

/-! ## Claim C9: the `LoadState` file operation

`LibretroCoreInstance.cpp` lines 168-198: the ordered operation loads
the snapshot file into a buffer; if the read fails it returns doing
nothing; if the buffer length differs from
`libretro_api.serialize_size()` it logs a warning; in both the matching
and the mismatching case it calls
`unserialize(buffer.GetData(), buffer.Num())`. -/

/-- The part of `libretro_api_t` the load operation consults. -/
structure SerializeApi where
  serialize_size : Nat
  deriving DecidableEq, Repr

/-- The observable effects of the load operation: whether the size
warning was logged and, when `unserialize` was invoked, the bytes and
the length it was invoked with. -/
structure LoadStateEffects where
  warned : Bool
  unserializeCalled : Option (List Nat × Nat)
  deriving DecidableEq, Repr

/-- The body of the `ULibretroCoreInstance::LoadState` ordered
operation. -/
def loadStateOperation (fileContents : Option (List Nat)) (api : SerializeApi) :
    LoadStateEffects :=
  match fileContents with
  | none => { warned := false, unserializeCalled := none }
  | some buffer =>
    { warned := decide (buffer.length ≠ api.serialize_size)
    , unserializeCalled := some (buffer, buffer.length) }

/-- Claim C9: when the snapshot file cannot be read the operation does
nothing (no warning, no `unserialize`); when it can, `unserialize` is
always invoked with the file bytes and the file length, and the warning
is logged exactly when that length differs from
`serialize_size`. -/
theorem loadState_best_effort (fileContents : Option (List Nat)) (api : SerializeApi) :
    (fileContents = none →
      loadStateOperation fileContents api = { warned := false, unserializeCalled := none }) ∧
    (∀ buffer, fileContents = some buffer →
      (loadStateOperation fileContents api).unserializeCalled = some (buffer, buffer.length) ∧
      ((loadStateOperation fileContents api).warned = true ↔
        buffer.length ≠ api.serialize_size)) := by
  constructor
  · intro h
    subst h
    rfl
  · intro buffer h
    subst h
    simp [loadStateOperation]

/-- Witness for `loadState_best_effort`: a missing file does nothing,
and a 3-byte snapshot against a module reporting 4 bytes is loaded
anyway with a warning. -/
theorem loadState_best_effort_witness :
    loadStateOperation none ⟨4⟩ = { warned := false, unserializeCalled := none } ∧
    (loadStateOperation (some [10, 11, 12]) ⟨4⟩).unserializeCalled = some ([10, 11, 12], 3) ∧
    (loadStateOperation (some [10, 11, 12]) ⟨4⟩).warned = true :=
  ⟨(loadState_best_effort none ⟨4⟩).1 rfl,
   ((loadState_best_effort (some [10, 11, 12]) ⟨4⟩).2 [10, 11, 12] rfl).1,
   (((loadState_best_effort (some [10, 11, 12]) ⟨4⟩).2 [10, 11, 12] rfl).2).mpr (by decide)⟩

/-! ## Claims C1 and C2: the path-keyed ordered file access chain

`LibretroCoreInstance.cpp` lines 34-53 (`LastIOTask`,
`MakeOrderedFileAccessOperation`) and lines 200-233
(`ULibretroCoreInstance::SaveState`).  Scheduling always happens on the
game thread (`check(IsInGameThread())`, and `SaveState` is a game-thread
member call), so the schedule is a sequence; an operation is identified
by its position in that sequence and carries the path it is keyed by.
At schedule time the map entry for the path is swapped with the
completion event of the new operation (`Replace` on `FindOrAdd`, or the
`FindOrAdd`-then-assign pair in `SaveState`), so the predecessor of an
operation is the operation most recently scheduled on the same path.
When the operation later runs on some worker thread it waits for the
predecessor completion event, performs its file access, and fulfills its
own event (`Unlock`). -/

/-- The `LastIOTask` map entry for path `p` after the operations of the
list have been scheduled in order, starting from index `i` with previous
entry `acc`: each operation overwrites the entry for its own path with
its own index. -/
def chainMapGo (p : String) : List String → Nat → Option Nat → Option Nat
  | [], _, acc => acc
  | q :: rest, i, acc => chainMapGo p rest (i + 1) (if q = p then some i else acc)

/-- The `LastIOTask` entry for path `p` after scheduling `ops`. -/
def chainEntry (ops : List String) (p : String) : Option Nat :=
  chainMapGo p ops 0 none

/-- Index of the last occurrence of `p` in a list, if any. -/
def lastIdx (p : String) : List String → Option Nat
  | [] => none
  | q :: rest =>
    match lastIdx p rest with
    | some k => some (k + 1)
    | none => if q = p then some 0 else none

/-- The path of the operation at position `i` of the schedule. -/
def pathAt (ops : List String) (i : Nat) : String := (ops.get? i).getD ""

/-- The predecessor operation `i` swapped out of the map when it was
scheduled: the entry for its path after the first `i` operations. -/
def predOp (ops : List String) (i : Nat) : Option Nat :=
  chainEntry (ops.take i) (pathAt ops i)

theorem lastIdx_cons (p q : String) (rest : List String) :
    lastIdx p (q :: rest) =
      (lastIdx p rest).elim (if q = p then some 0 else none) (fun k => some (k + 1)) := by
  simp only [lastIdx]
  cases lastIdx p rest <;> rfl

theorem chainMapGo_eq_lastIdx (p : String) :
    ∀ (l : List String) (i : Nat) (acc : Option Nat),
      chainMapGo p l i acc = (lastIdx p l).elim acc (fun k => some (i + k)) := by
  intro l
  induction l with
  | nil => intro i acc; rfl
  | cons q rest ih =>
    intro i acc
    simp only [chainMapGo]
    rw [ih, lastIdx_cons]
    cases hr : lastIdx p rest with
    | none =>
      by_cases hq : q = p <;> simp [hq]
    | some k =>
      simp only [Option.elim_some, Option.some.injEq]
      omega

theorem chainEntry_eq_lastIdx (ops : List String) (p : String) :
    chainEntry ops p = lastIdx p ops := by
  rw [chainEntry, chainMapGo_eq_lastIdx]
  cases h : lastIdx p ops <;> simp

theorem lastIdx_lt_length (p : String) :
    ∀ (l : List String) (k : Nat), lastIdx p l = some k → k < l.length := by
  intro l
  induction l with
  | nil => intro k h; simp [lastIdx] at h
  | cons q rest ih =>
    intro k h
    rw [lastIdx_cons] at h
    cases hr : lastIdx p rest with
    | none =>
      rw [hr] at h
      by_cases hq : q = p
      · rw [if_pos hq] at h
        simp only [Option.elim_none, Option.some.injEq] at h
        simp [← h]
      · rw [if_neg hq] at h
        simp at h
    | some k' =>
      rw [hr] at h
      simp only [Option.elim_some, Option.some.injEq] at h
      have := ih k' hr
      simp only [List.length_cons]
      omega

theorem lastIdx_mem (p : String) :
    ∀ (l : List String) (k : Nat), lastIdx p l = some k → l.get? k = some p := by
  intro l
  induction l with
  | nil => intro k h; simp [lastIdx] at h
  | cons q rest ih =>
    intro k h
    rw [lastIdx_cons] at h
    cases hr : lastIdx p rest with
    | none =>
      rw [hr] at h
      by_cases hq : q = p
      · rw [if_pos hq] at h
        simp only [Option.elim_none, Option.some.injEq] at h
        subst h
        simp [hq]
      · rw [if_neg hq] at h
        simp at h
    | some k' =>
      rw [hr] at h
      simp only [Option.elim_some, Option.some.injEq] at h
      subst h
      simpa using ih k' hr

theorem lastIdx_exists (p : String) :
    ∀ (l : List String) (j : Nat), l.get? j = some p →
      ∃ k, lastIdx p l = some k ∧ j ≤ k := by
  intro l
  induction l with
  | nil => intro j h; simp at h
  | cons q rest ih =>
    intro j h
    cases j with
    | zero =>
      simp only [List.get?] at h
      have hq : q = p := Option.some.inj h
      cases hr : lastIdx p rest with
      | none => exact ⟨0, by rw [lastIdx_cons, hr, if_pos hq]; rfl, Nat.le_refl 0⟩
      | some k' => exact ⟨k' + 1, by rw [lastIdx_cons, hr]; rfl, by omega⟩
    | succ j' =>
      simp only [List.get?] at h
      obtain ⟨k', hk', hjk'⟩ := ih j' h
      exact ⟨k' + 1, by rw [lastIdx_cons, hk']; rfl, by omega⟩

theorem get?_take_of_lt :
    ∀ (l : List String) (n m : Nat), m < n → (l.take n).get? m = l.get? m := by
  intro l
  induction l with
  | nil => intro n m _; simp
  | cons q rest ih =>
    intro n m hmn
    cases n with
    | zero => omega
    | succ n' =>
      cases m with
      | zero => rfl
      | succ m' => simpa using ih n' m' (by omega)

/-- For two operations on the same path with `i` scheduled before `j`,
the predecessor of `j` is an operation on the same path between `i`
(inclusive) and `j`. -/
theorem predOp_between (ops : List String) (p : String) (i j : Nat)
    (hi : ops.get? i = some p) (hj : ops.get? j = some p) (hij : i < j) :
    ∃ k, predOp ops j = some k ∧ i ≤ k ∧ k < j ∧ ops.get? k = some p := by
  have hpath : pathAt ops j = p := by unfold pathAt; rw [hj]; rfl
  have hi' : (ops.take j).get? i = some p := by
    rw [get?_take_of_lt ops j i hij]; exact hi
  obtain ⟨k, hk, hik⟩ := lastIdx_exists p (ops.take j) i hi'
  have hklen : k < (ops.take j).length := lastIdx_lt_length p (ops.take j) k hk
  have hkj : k < j := by
    have h1 : (ops.take j).length ≤ j := by
      rw [List.length_take]; omega
    omega
  have hkmem : (ops.take j).get? k = some p := lastIdx_mem p (ops.take j) k hk
  have hkmem' : ops.get? k = some p := by
    rw [get?_take_of_lt ops j k hkj] at hkmem; exact hkmem
  refine ⟨k, ?_, hik, hkj, hkmem'⟩
  rw [predOp, hpath, chainEntry_eq_lastIdx, hk]

/-- An execution of a schedule of chained operations, abstracted to the
instants at which each operation starts its file access (after its wait
on the predecessor completion event returned) and fulfills its own
completion event (the `Unlock` after the file access).  The two
constraints are exactly what the code enforces: an operation fulfills
its event only after its file access, and an operation with a
predecessor starts its file access only after the predecessor event is
fulfilled — nothing else about thread or worker-pool interleaving is
assumed. -/
structure ChainExecution (ops : List String) where
  startT : Nat → Nat
  completeT : Nat → Nat
  start_before_complete : ∀ i, i < ops.length → startT i < completeT i
  waits_for_predecessor : ∀ i j, i < ops.length → predOp ops i = some j → completeT j < startT i

theorem chain_order_aux (ops : List String) (e : ChainExecution ops) (p : String) (i : Nat)
    (hi : ops.get? i = some p) :
    ∀ j, ops.get? j = some p → i < j → e.completeT i < e.startT j := by
  intro j
  induction j using Nat.strong_induction_on with
  | _ j ih =>
    intro hj hij
    have hjlen : j < ops.length := by
      by_contra hcon
      rw [List.get?_eq_none.mpr (by omega)] at hj
      exact Option.noConfusion hj
    obtain ⟨k, hpred, hik, hkj, hkp⟩ := predOp_between ops p i j hi hj hij
    have hwait := e.waits_for_predecessor j k hjlen hpred
    rcases Nat.lt_or_ge i k with hlt | hge
    · have hklen : k < ops.length := by omega
      have h1 := ih k hkj hkp hlt
      have h2 := e.start_before_complete k hklen
      omega
    · have hik' : i = k := by omega
      subst hik'
      exact hwait

/-- An execution of a two-operation schedule on distinct paths in which
the first-scheduled operation also runs first. -/
def execForward : ChainExecution ["A", "B"] where
  startT := fun i => 2 * i
  completeT := fun i => 2 * i + 1
  start_before_complete := by intro i _; show 2 * i < 2 * i + 1; omega
  waits_for_predecessor := by
    intro i j hi hp
    simp only [List.length_cons, List.length_nil] at hi
    interval_cases i
    · have h0 : predOp ["A", "B"] 0 = none := by decide
      rw [h0] at hp
      exact Option.noConfusion hp
    · have h1 : predOp ["A", "B"] 1 = none := by decide
      rw [h1] at hp
      exact Option.noConfusion hp

/-- An execution of the same two-operation schedule in which the
second-scheduled operation runs entirely before the first: legal because
the two paths are distinct, so neither operation is the predecessor of
the other. -/
def execBackward : ChainExecution ["A", "B"] where
  startT := fun i => if i = 0 then 2 else 0
  completeT := fun i => if i = 0 then 3 else 1
  start_before_complete := by
    intro i hi
    by_cases h : i = 0 <;> simp [h]
  waits_for_predecessor := by
    intro i j hi hp
    simp only [List.length_cons, List.length_nil] at hi
    interval_cases i
    · have h0 : predOp ["A", "B"] 0 = none := by decide
      rw [h0] at hp
      exact Option.noConfusion hp
    · have h1 : predOp ["A", "B"] 1 = none := by decide
      rw [h1] at hp
      exact Option.noConfusion hp

/-- An execution of a two-operation schedule on the same path, for
instantiating the ordering theorem. -/
def execSamePath : ChainExecution ["X", "X"] where
  startT := fun i => 2 * i
  completeT := fun i => 2 * i + 1
  start_before_complete := by intro i _; show 2 * i < 2 * i + 1; omega
  waits_for_predecessor := by
    intro i j hi hp
    simp only [List.length_cons, List.length_nil] at hi
    interval_cases i
    · have h0 : predOp ["X", "X"] 0 = none := by decide
      rw [h0] at hp
      exact Option.noConfusion hp
    · have h1 : predOp ["X", "X"] 1 = some 0 := by decide
      rw [h1] at hp
      injection hp with hj
      subst hj
      norm_num

/-- Claim C1: in every execution of a schedule of chained file
operations, two operations on the same path run in schedule order and
never interleave — the earlier one fulfills its completion event
strictly before the later one starts its file access, whatever threads
run them; and operations on distinct paths impose no ordering on each
other: for a two-operation schedule on distinct paths both execution
orders are admitted by the chain constraints. -/
theorem ordered_chain_per_path :
    (∀ (ops : List String) (e : ChainExecution ops) (p : String) (i j : Nat),
      ops.get? i = some p → ops.get? j = some p → i < j →
      e.completeT i < e.startT j) ∧
    (∃ e : ChainExecution ["A", "B"], e.completeT 0 < e.startT 1) ∧
    (∃ e : ChainExecution ["A", "B"], e.completeT 1 < e.startT 0) := by
  refine ⟨?_, ⟨execForward, by decide⟩, ⟨execBackward, by decide⟩⟩
  intro ops e p i j hi hj hij
  exact chain_order_aux ops e p i hi j hj hij

/-- Witness for `ordered_chain_per_path`: in the concrete execution
`execSamePath` of two operations on one path, the first operation
completes before the second starts. -/
theorem ordered_chain_per_path_witness :
    execSamePath.completeT 0 < execSamePath.startT 1 :=
  ordered_chain_per_path.1 ["X", "X"] execSamePath "X" 0 1 rfl rfl (by omega)

/-! ## Claim C2: completion is fulfilled unconditionally

The body of the closure returned by `MakeOrderedFileAccessOperation`
(`LibretroCoreInstance.cpp` lines 42-53): wait for the swapped-out
predecessor event if there is one, run the file operation, then
`Unlock` the own completion event — the `Unlock` is not conditioned on
anything the file operation does, and the wait names only the
predecessor event, which carries no success information. -/

/-- The individual actions the closure performs, in order. -/
inductive ChainAction where
  | waitFor (predecessor : Nat)
  | ioRun (ok : Bool)
  | unlock
  deriving DecidableEq, Repr

def isWaitAction : ChainAction → Bool
  | ChainAction.waitFor _ => true
  | _ => false

/-- The action sequence of one chained operation: the conditional wait
(`if (LastIOOperation) WaitUntilTaskCompletes(...)`), the file
operation, the `Unlock`. -/
def orderedOpRun (predecessor : Option Nat) (ioOk : Bool) : List ChainAction :=
  (match predecessor with
   | some k => [ChainAction.waitFor k]
   | none => []) ++ [ChainAction.ioRun ioOk, ChainAction.unlock]

/-- Whether the `LoadState` file operation got past its early return:
`FFileHelper::LoadFileToArray` succeeded. -/
def loadStateSucceeded (fileContents : Option (List Nat)) : Bool := fileContents.isSome

/-- Claim C2: a chained operation ends by fulfilling its own completion
event whatever its file access did — in particular for the `LoadState`
body when the snapshot file is missing, whose early return performs no
`unserialize` yet is still followed by the `Unlock`; and the wait
actions of the run depend only on the identity of the predecessor, never
on whether the predecessor file access succeeded. -/
theorem ordered_op_always_fulfills (predecessor : Option Nat)
    (fileContents : Option (List Nat)) (api : SerializeApi) (ok1 ok2 : Bool) :
    (orderedOpRun predecessor ok1).getLast? = some ChainAction.unlock ∧
    (orderedOpRun predecessor (loadStateSucceeded fileContents)).getLast? =
      some ChainAction.unlock ∧
    (loadStateSucceeded none = false ∧
      (loadStateOperation none api).unserializeCalled = none) ∧
    (orderedOpRun predecessor ok1).filter isWaitAction =
      (orderedOpRun predecessor ok2).filter isWaitAction := by
  cases predecessor <;>
    exact ⟨rfl, rfl, ⟨rfl, rfl⟩, rfl⟩
